import Mathlib

/-!
Verification development for the P2P_W3 repository.

Part 1 embeds the Motoko signaling canister (`src/backend/main.mo`): the
session store, code generation, and the public operations `createSession`,
`registerPeer`, `sendSignal`, `getSignals` (the polling read) and
`clearSignals`.  The two `HashMap`s of the actor are modelled as association
lists (`assocGet` / `assocPut` / `assocDelete` mirror `get` / `put` /
`delete`), and the canister-local time `Time.now()` is passed explicitly as
an integer parameter `now` (nanoseconds); within one message execution the
source reads a single fixed time, so one parameter per call is faithful.
Motoko's `Int` division truncates toward zero, which is `Int.tdiv`.

Part 2 embeds the browser client (`src/frontend/app.js`): the data-channel
framing of `sendFileData`, the receiver's `handleDataChannelMessage` /
`handleFileChunk` state updates, and the signal handler
`handleSignalFromCanister` of the WebRTC setup state machine.  Bytes are
modelled as natural numbers; every `setRemoteDescription` call of the source
is recorded in an explicit application log.
-/

/-- `PeerInfo` record of `main.mo`. -/
structure PeerInfo where
  id : String
  joinedAt : Int
deriving Repr, DecidableEq

/-- `Session` record of `main.mo`; `signals` maps a peer id to its queue. -/
structure Session where
  id : String
  code : String
  createdAt : Int
  peers : List PeerInfo
  isLocked : Bool
  signals : List (String × List String)
deriving Repr, DecidableEq

/-- The actor state: the two `HashMap`s and the session counter. -/
structure Store where
  sessions : List (String × Session)
  codeToSessionId : List (String × String)
  sessionCounter : Nat
deriving Repr, DecidableEq

/-- `HashMap.get`: first entry with the given key. -/
def assocGet {α : Type} (m : List (String × α)) (k : String) : Option α :=
  (m.find? (fun p => p.1 == k)).map Prod.snd

/-- `HashMap.put`: replace the value at an existing key, else append. -/
def assocPut {α : Type} (m : List (String × α)) (k : String) (v : α) :
    List (String × α) :=
  if m.any (fun p => p.1 == k) then
    m.map (fun p => if p.1 == k then (k, v) else p)
  else
    m ++ [(k, v)]

/-- `HashMap.delete`: drop the entries with the given key. -/
def assocDelete {α : Type} (m : List (String × α)) (k : String) :
    List (String × α) :=
  m.filter (fun p => !(p.1 == k))

/-- `SESSION_TTL_SECONDS` of `main.mo`. -/
def SESSION_TTL_SECONDS : Int := 600

/-- `MAX_PEERS_PER_SESSION` of `main.mo`. -/
def MAX_PEERS_PER_SESSION : Nat := 2

/-- `isSessionExpired`: elapsed nanoseconds divided (truncating, as Motoko
`Int` division does) by 1e9, compared strictly against the TTL. -/
def isSessionExpired (now : Int) (s : Session) : Bool :=
  decide ((now - s.createdAt).tdiv 1000000000 > SESSION_TTL_SECONDS)

/-- One iteration of the second loop of `cleanupExpiredSessions`: delete the
code-index entry of the session (if still present) and the session itself. -/
def cleanupStep (acc : Store) (sessionId : String) : Store :=
  let acc1 :=
    match assocGet acc.sessions sessionId with
    | some s => { acc with codeToSessionId := assocDelete acc.codeToSessionId s.code }
    | none => acc
  { acc1 with sessions := assocDelete acc1.sessions sessionId }

/-- `cleanupExpiredSessions`: collect expired session ids, then remove each
together with its code-index entry. -/
def cleanupExpiredSessions (now : Int) (st : Store) : Store :=
  let sessionsToRemove :=
    (st.sessions.filter (fun e => isSessionExpired now e.2)).map Prod.fst
  sessionsToRemove.foldl cleanupStep st

/-- `getPeerSignals`: the queue of the first matching mailbox entry, else `[]`. -/
def getPeerSignals (session : Session) (peerId : String) : List String :=
  match session.signals.find? (fun q => q.1 == peerId) with
  | some q => q.2
  | none => []

/-- `updateSessionSignals`: append `newSignal` to the target's queue; if the
target has no mailbox entry yet, append a fresh entry. -/
def updateSessionSignals (session : Session) (targetPeerId : String)
    (newSignal : String) : Session :=
  let found := session.signals.any (fun q => q.1 == targetPeerId)
  let updatedSignals := session.signals.map
    (fun q => if q.1 == targetPeerId then (q.1, q.2 ++ [newSignal]) else q)
  { session with
    signals := if found then updatedSignals
               else updatedSignals ++ [(targetPeerId, [newSignal])] }

/-- `clearPeerSignals`: empty the queue of every entry keyed by `peerId`. -/
def clearPeerSignals (session : Session) (peerId : String) : Session :=
  { session with
    signals := session.signals.map
      (fun q => if q.1 == peerId then (q.1, ([] : List String)) else q) }

/-- The 36-symbol alphabet of `generateCode`. -/
def CODE_CHARS : List Char := "ABCDEFGHIJKLMNOPQRSTUVWXYZ0123456789".toList

/-- The two mixing steps of the LCG inside `generateCode`, modulo 2^32. -/
def lcgStep (s : Nat) : Nat :=
  let s1 := (s * 1664525 + 1013904223) % 4294967296
  (s1 * 2654435761) % 4294967296

/-- The characters produced by the `for` loop of `generateCode`, in order. -/
def genChars : Nat → Nat → List Char
  | _, 0 => []
  | s, n + 1 =>
    let s1 := lcgStep s
    CODE_CHARS.getD (s1 % 36) 'A' :: genChars s1 n

/-- `generateCode`: six characters driven by the seeded LCG. -/
def generateCode (seed : Nat) : String :=
  String.mk (genChars seed 6)

/-- The collision `while` loop of `createSession`.  `attempts` mirrors the
source counter; `fuel = 100 - attempts` realises the `attempts < 100` bound. -/
def retryLoop (idx : List (String × String)) (base : Nat) :
    Nat → Nat → String → String
  | _, 0, code => code
  | attempts, f + 1, code =>
    if (assocGet idx code).isSome then
      retryLoop idx base (attempts + 1) f
        (generateCode (base + (attempts + 1) * 104729))
    else code

/-- Return record of `createSession`. -/
structure CreateResult where
  sessionId : String
  code : String
deriving Repr, DecidableEq

/-- `createSession`: sweep, build the id and seed, run the collision loop and
insert the new session.  On exhaustion of the 100-attempt bound the source
falls out of the `while` and inserts the last candidate code regardless. -/
def createSession (now : Int) (st : Store) : CreateResult × Store :=
  let st1 := cleanupExpiredSessions now st
  let counter := st1.sessionCounter + 1
  let sessionId := "session_" ++ toString counter ++ "_" ++ toString now
  let baseSeed := (now.natAbs % 999999999) + counter * 7919
  let code := retryLoop st1.codeToSessionId baseSeed 0 100 (generateCode baseSeed)
  let newSession : Session :=
    { id := sessionId, code := code, createdAt := now,
      peers := [], isLocked := false, signals := [] }
  (⟨sessionId, code⟩,
   { sessions := assocPut st1.sessions sessionId newSession,
     codeToSessionId := assocPut st1.codeToSessionId code sessionId,
     sessionCounter := counter })

/-- Result type of `registerPeer` (`#ok sessionId` / `#err msg`). -/
inductive RegisterResult where
  | ok (sessionId : String)
  | err (msg : String)
deriving Repr, DecidableEq

/-- `registerPeer`, branch for branch from `main.mo`: sweep, look up the code,
expiry check (with deletion), lock check, already-member check, capacity
check, then append the peer with an empty mailbox entry and lock at 2. -/
def registerPeer (now : Int) (st : Store) (code : String) (peerId : String) :
    RegisterResult × Store :=
  let st1 := cleanupExpiredSessions now st
  match assocGet st1.codeToSessionId code with
  | none => (.err "Session not found or expired", st1)
  | some sessionId =>
    match assocGet st1.sessions sessionId with
    | none => (.err "Session not found", st1)
    | some session =>
      if isSessionExpired now session then
        (.err "Session expired",
         { st1 with sessions := assocDelete st1.sessions sessionId,
                    codeToSessionId := assocDelete st1.codeToSessionId code })
      else if session.isLocked then
        (.err "Session is full", st1)
      else if session.peers.any (fun p => p.id == peerId) then
        (.ok sessionId, st1)
      else if MAX_PEERS_PER_SESSION ≤ session.peers.length then
        (.err "Session is full", st1)
      else
        let newPeers := session.peers ++ [{ id := peerId, joinedAt := now }]
        let shouldLock := decide (MAX_PEERS_PER_SESSION ≤ newPeers.length)
        let updatedSession : Session :=
          { id := session.id, code := session.code, createdAt := session.createdAt,
            peers := newPeers, isLocked := shouldLock,
            signals := session.signals ++ [(peerId, [])] }
        (.ok sessionId,
         { st1 with sessions := assocPut st1.sessions sessionId updatedSession })

/-- Result type of `sendSignal` (`#ok` / `#err msg`). -/
inductive SendResult where
  | ok
  | err (msg : String)
deriving Repr, DecidableEq

/-- The target-selection loop of `sendSignal`: the last peer whose id differs
from the sender's. -/
def findTargetPeer (peers : List PeerInfo) (fromPeerId : String) : Option String :=
  peers.foldl (fun acc p => if p.id != fromPeerId then some p.id else acc) none

/-- `sendSignal`: no sweep — only the addressed session is expiry-checked
(and deleted if stale); then membership check and delivery to the other peer. -/
def sendSignal (now : Int) (st : Store) (sessionId fromPeerId sig : String) :
    SendResult × Store :=
  match assocGet st.sessions sessionId with
  | none => (.err "Session not found", st)
  | some session =>
    if isSessionExpired now session then
      (.err "Session expired",
       { st with sessions := assocDelete st.sessions sessionId,
                 codeToSessionId := assocDelete st.codeToSessionId session.code })
    else if !(session.peers.any (fun p => p.id == fromPeerId)) then
      (.err "Peer not registered in this session", st)
    else
      match findTargetPeer session.peers fromPeerId with
      | none => (.err "No other peer in session yet", st)
      | some toPeerId =>
        let updatedSession := updateSessionSignals session toPeerId sig
        (.ok, { st with sessions := assocPut st.sessions sessionId updatedSession })

/-- Result type of `getSignals` (`#ok signals` / `#err msg`). -/
inductive SignalsResult where
  | ok (signals : List String)
  | err (msg : String)
deriving Repr, DecidableEq

/-- `getSignals` is a Motoko `query`: it cannot commit state changes, so the
embedding returns the store unchanged in every branch.  Expiry is only
reported, never acted upon. -/
def getSignals (now : Int) (st : Store) (sessionId peerId : String) :
    SignalsResult × Store :=
  match assocGet st.sessions sessionId with
  | none => (.err "Session not found", st)
  | some session =>
    if isSessionExpired now session then
      (.err "Session expired", st)
    else if !(session.peers.any (fun p => p.id == peerId)) then
      (.err "Peer not registered in this session", st)
    else
      (.ok (getPeerSignals session peerId), st)

/-- Result type of `clearSignals` (`#ok` / `#err msg`). -/
inductive ClearResult where
  | ok
  | err (msg : String)
deriving Repr, DecidableEq

/-- `clearSignals`: no sweep, no expiry check, no membership check — look the
session up and empty the queues keyed by `peerId`. -/
def clearSignals (st : Store) (sessionId peerId : String) :
    ClearResult × Store :=
  match assocGet st.sessions sessionId with
  | none => (.err "Session not found", st)
  | some session =>
    let updatedSession := clearPeerSignals session peerId
    (.ok, { st with sessions := assocPut st.sessions sessionId updatedSession })

/-- The empty actor state at installation. -/
def initStore : Store :=
  { sessions := [], codeToSessionId := [], sessionCounter := 0 }

/-- One coordinator call, as a transition between store states. -/
inductive Step : Store → Store → Prop
  | create (now : Int) (st : Store) : Step st (createSession now st).2
  | register (now : Int) (code peerId : String) (st : Store) :
      Step st (registerPeer now st code peerId).2
  | send (now : Int) (sessionId fromPeerId sig : String) (st : Store) :
      Step st (sendSignal now st sessionId fromPeerId sig).2
  | clear (sessionId peerId : String) (st : Store) :
      Step st (clearSignals st sessionId peerId).2

/-- Store states reachable from the fresh actor by coordinator calls. -/
inductive Reachable : Store → Prop
  | init : Reachable initStore
  | step {st st' : Store} : Reachable st → Step st st' → Reachable st'

/-- The per-session invariant of the spec, strengthened with "every mailbox
key belongs to a registered peer" (needed inductively). -/
def SessionInv (s : Session) : Prop :=
  s.peers.length ≤ 2 ∧
  s.isLocked = decide (2 ≤ s.peers.length) ∧
  (∀ q ∈ s.signals, ∃ p ∈ s.peers, q.1 = p.id) ∧
  (∀ p ∈ s.peers, (s.signals.filter (fun q => q.1 == p.id)).length = 1)

/-- Every stored session satisfies the session invariant. -/
def StoreInv (st : Store) : Prop :=
  ∀ e ∈ st.sessions, SessionInv e.2

/-- The tagged messages exchanged on the data channel (`app.js`): the framing
of `sendFileData` / `handleDataChannelMessage`.  A `chunkData` message is the
raw binary frame that follows a `chunkHeader`. -/
inductive DCMessage where
  | metadata (fileName : String) (fileSize : Nat) (totalChunks : Nat) (isCompressed : Bool)
  | chunkHeader (index : Nat) (size : Nat)
  | chunkData (payload : List Nat)
  | complete
  | resume (fromChunk : Nat)
  | calibrationTest
deriving Repr, DecidableEq

/-- Discriminator for `chunkHeader` frames. -/
def DCMessage.isChunkHeader : DCMessage → Bool
  | .chunkHeader _ _ => true
  | _ => false

/-- Discriminator for binary payload frames. -/
def DCMessage.isChunkData : DCMessage → Bool
  | .chunkData _ => true
  | _ => false

/-- Discriminator for the `complete` sentinel. -/
def DCMessage.isComplete : DCMessage → Bool
  | .complete => true
  | _ => false

/-- Discriminator for `metadata` frames. -/
def DCMessage.isMetadata : DCMessage → Bool
  | .metadata _ _ _ _ => true
  | _ => false

/-- The `while (offset < fileSize)` loop of `sendFileData`: per iteration one
`chunkHeader {index, size}` then the sliced payload; `offset += CHUNK_SIZE`,
`chunkIndex++`.  `fuel` is an upper bound on the iteration count (the loop
itself terminates because `offset` grows by the positive chunk size). -/
def chunkLoop (chunkSize : Nat) (file : List Nat) :
    Nat → Nat → Nat → List DCMessage
  | 0, _, _ => []
  | fuel + 1, offset, chunkIndex =>
    if offset < file.length then
      let chunk := (file.drop offset).take chunkSize
      DCMessage.chunkHeader chunkIndex chunk.length ::
        DCMessage.chunkData chunk ::
          chunkLoop chunkSize file fuel (offset + chunkSize) (chunkIndex + 1)
    else []

/-- `sendFileData`: stream every chunk from offset 0 — the source reads no
resume state here — then emit the `complete` sentinel.  The sent bytes are
the (possibly pre-compressed) `fileToSend` blob. -/
def sendFileData (file : List Nat) (chunkSize : Nat) : List DCMessage :=
  chunkLoop chunkSize file (file.length + 1) 0 0 ++ [DCMessage.complete]

/-- The binary payloads of a message list, in order. -/
def sentPayloads (msgs : List DCMessage) : List (List Nat) :=
  msgs.filterMap (fun m => match m with | .chunkData p => some p | _ => none)

/-- The receiver-side fields of the shared `state` object that the transfer
engine mutates. -/
structure ReceiverState where
  expectingChunkData : Bool
  currentChunkSize : Nat
  receivedChunks : List (List Nat)
  receivedBytes : Nat
  chunksReceived : Nat
  receivedChunkMap : List Nat
  resumeFromChunk : Nat
  totalChunks : Nat
deriving Repr, DecidableEq

/-- The receiver fields as initialised by the `AppState` constructor. -/
def initReceiver : ReceiverState :=
  { expectingChunkData := false, currentChunkSize := 0, receivedChunks := [],
    receivedBytes := 0, chunksReceived := 0, receivedChunkMap := [],
    resumeFromChunk := 0, totalChunks := 0 }

/-- `Set.add` of JavaScript: append if absent. -/
def setAdd (l : List Nat) (x : Nat) : List Nat :=
  if x ∈ l then l else l ++ [x]

/-- `handleFileChunk`: push the payload, bump the byte and chunk counters,
then record `chunksReceived - 1` — the arrival position, not the header
index — in `receivedChunkMap`. -/
def handleFileChunk (st : ReceiverState) (payload : List Nat) : ReceiverState :=
  let st1 :=
    { st with receivedChunks := st.receivedChunks ++ [payload],
              receivedBytes := st.receivedBytes + payload.length,
              chunksReceived := st.chunksReceived + 1 }
  { st1 with receivedChunkMap := setAdd st1.receivedChunkMap (st1.chunksReceived - 1) }

/-- `handleDataChannelMessage`: dispatch on the tag.  A `chunk` header only
stores the size and raises `expectingChunkData`; the header's `index` field
is not read.  A binary frame is consumed only while the flag is set.  A
`resume` message stores `fromChunk` in `state.resumeFromChunk`.  `metadata`
resets the chunk accumulators (`handleFileMetadata`). -/
def handleDataChannelMessage (st : ReceiverState) (m : DCMessage) : ReceiverState :=
  match m with
  | .calibrationTest => st
  | .resume fromChunk => { st with resumeFromChunk := fromChunk }
  | .metadata _ _ total _ =>
    { st with totalChunks := total, receivedChunks := [], chunksReceived := 0 }
  | .chunkHeader _ size =>
    { st with expectingChunkData := true, currentChunkSize := size }
  | .complete => st
  | .chunkData payload =>
    if st.expectingChunkData then
      { handleFileChunk st payload with expectingChunkData := false }
    else st

/-- Fold a message sequence through the receiver's handler. -/
def runReceiver (msgs : List DCMessage) (st : ReceiverState) : ReceiverState :=
  msgs.foldl handleDataChannelMessage st

/-- `handleTransferComplete`, uncompressed path: concatenate the accumulated
chunk buffers in stored order (`new Blob(state.receivedChunks)`). -/
def reassemble (st : ReceiverState) : List Nat :=
  st.receivedChunks.flatten

/-- The parsed signals relayed through the canister
(`offer` / `answer` / `ice-candidate`). -/
inductive SignalMsg where
  | offer (sdp : String)
  | answer (sdp : String)
  | iceCandidate (candidate : Option String)
deriving Repr, DecidableEq

/-- The connection-setup fields of the shared `state` object, instrumented
with a log of every `setRemoteDescription` call the handler performs. -/
structure ConnState where
  remoteDescriptionSet : Bool
  appliedDescriptions : List SignalMsg
  pendingIceCandidates : List String
  addedIceCandidates : List String
  answersSent : Nat
deriving Repr, DecidableEq

/-- Connection-setup state as initialised by the `AppState` constructor. -/
def initConn : ConnState :=
  { remoteDescriptionSet := false, appliedDescriptions := [],
    pendingIceCandidates := [], addedIceCandidates := [], answersSent := 0 }

/-- `handleSignalFromCanister`: an `offer` always applies the remote
description, answers, and flushes buffered candidates; an `answer` is applied
only while `remoteDescriptionSet` is still false (then the flag is raised and
buffered candidates flushed); an `ice-candidate` is applied immediately when
the remote description is set, else buffered in arrival order. -/
def handleSignalFromCanister (st : ConnState) (sig : SignalMsg) : ConnState :=
  match sig with
  | .offer sdp =>
    let st1 :=
      { st with appliedDescriptions := st.appliedDescriptions ++ [SignalMsg.offer sdp],
                remoteDescriptionSet := true,
                answersSent := st.answersSent + 1 }
    { st1 with addedIceCandidates := st1.addedIceCandidates ++ st1.pendingIceCandidates,
               pendingIceCandidates := [] }
  | .answer sdp =>
    if st.remoteDescriptionSet then st
    else
      let st1 :=
        { st with appliedDescriptions := st.appliedDescriptions ++ [SignalMsg.answer sdp],
                  remoteDescriptionSet := true }
      { st1 with addedIceCandidates := st1.addedIceCandidates ++ st1.pendingIceCandidates,
                 pendingIceCandidates := [] }
  | .iceCandidate c =>
    match c with
    | none => st
    | some cand =>
      if st.remoteDescriptionSet then
        { st with addedIceCandidates := st.addedIceCandidates ++ [cand] }
      else
        { st with pendingIceCandidates := st.pendingIceCandidates ++ [cand] }

/-- Number of `answer` descriptions in an application log. -/
def countAnswerApplications (l : List SignalMsg) : Nat :=
  (l.filter (fun m => match m with | .answer _ => true | _ => false)).length

/-- A live session already locked with two peers. -/
def lockedSession : Session :=
  { id := "s1", code := "ZZZZ99", createdAt := 0,
    peers := [{ id := "A", joinedAt := 0 }, { id := "B", joinedAt := 0 }],
    isLocked := true, signals := [("A", []), ("B", [])] }

/-- A store holding only `lockedSession`. -/
def lockedStore : Store :=
  { sessions := [("s1", lockedSession)],
    codeToSessionId := [("ZZZZ99", "s1")], sessionCounter := 1 }

/-- A live session with one registered peer. -/
def halfSession : Session :=
  { id := "s1", code := "ZZZZ98", createdAt := 0,
    peers := [{ id := "A", joinedAt := 0 }], isLocked := false,
    signals := [("A", [])] }

/-- A store holding only `halfSession`. -/
def halfStore : Store :=
  { sessions := [("s1", halfSession)],
    codeToSessionId := [("ZZZZ98", "s1")], sessionCounter := 1 }

/-- A session created at time 0; at `now = 700e9` ns its age is 700 s,
beyond the 600 s TTL. -/
def eSession : Session :=
  { id := "e", code := "EEEEEE", createdAt := 0, peers := [], isLocked := false,
    signals := [] }

/-- A store holding only the expired `eSession`. -/
def expiredStore : Store :=
  { sessions := [("e", eSession)],
    codeToSessionId := [("EEEEEE", "e")], sessionCounter := 1 }

/-- The code generated by the first `createSession` call on the fresh store
at time 0. -/
def wCode : String := (createSession 0 initStore).1.code

/-- Create a session at time 0, then register peers "A" and "B" against its
code: a concrete reachable store with a full, locked session. -/
def wStore : Store :=
  (registerPeer 0 (registerPeer 0 (createSession 0 initStore).2 wCode "A").2 wCode "B").2

/-- The session stored in `wStore`. -/
def wSession : Session :=
  { id := "session_1_0", code := wCode, createdAt := 0,
    peers := [{ id := "A", joinedAt := 0 }, { id := "B", joinedAt := 0 }],
    isLocked := true, signals := [("A", []), ("B", [])] }

/-- The 101 candidate codes a `createSession` call at time 0 on a store with
`sessionCounter = 101` examines: seed `(0 % 999999999) + 102 * 7919 = 807738`
and the 100 prime-offset retries. -/
def collisionCodes : List String :=
  (List.range 101).map (fun k => generateCode (807738 + k * 104729))

/-- A store whose 101 live sessions occupy exactly those candidate codes, so
the collision loop exhausts its 100-attempt bound. -/
def collisionStore : Store :=
  { sessions := (List.range 101).map (fun k =>
      ("old_" ++ toString k,
       { id := "old_" ++ toString k, code := generateCode (807738 + k * 104729),
         createdAt := 0, peers := [], isLocked := false, signals := [] })),
    codeToSessionId := (List.range 101).map (fun k =>
      (generateCode (807738 + k * 104729), "old_" ++ toString k)),
    sessionCounter := 101 }

theorem mem_of_assocGet {α : Type} {m : List (String × α)} {k : String} {v : α}
    (h : assocGet m k = some v) : (k, v) ∈ m := by
  unfold assocGet at h
  cases hf : m.find? (fun p => p.1 == k) with
  | none => rw [hf] at h; simp at h
  | some p =>
    rw [hf] at h
    have hmem := List.mem_of_find?_eq_some hf
    have hpk := List.find?_some hf
    obtain ⟨a, b⟩ := p
    simp only [beq_iff_eq] at hpk
    simp at h
    subst hpk
    subst h
    exact hmem

theorem assocGet_any {α : Type} {m : List (String × α)} {k : String} {v : α}
    (h : assocGet m k = some v) : m.any (fun p => p.1 == k) = true := by
  have hm := mem_of_assocGet h
  exact List.any_eq_true.mpr ⟨(k, v), hm, by simp⟩

theorem assocPut_mem {α : Type} {m : List (String × α)} {k : String} {v : α}
    {e : String × α} (h : e ∈ assocPut m k v) : e ∈ m ∨ e = (k, v) := by
  unfold assocPut at h
  by_cases hAny : m.any (fun p => p.1 == k) = true
  · rw [if_pos hAny] at h
    obtain ⟨a, ha, hae⟩ := List.mem_map.mp h
    by_cases hk : (a.1 == k) = true
    · right; rw [if_pos hk] at hae; exact hae.symm
    · left; rw [if_neg hk] at hae; exact hae ▸ ha
  · rw [if_neg hAny] at h
    rcases List.mem_append.mp h with h1 | h1
    · exact Or.inl h1
    · right; simpa using h1

theorem assocDelete_mem {α : Type} {m : List (String × α)} {k : String}
    {e : String × α} (h : e ∈ assocDelete m k) : e ∈ m :=
  List.mem_of_mem_filter h

theorem assocGet_assocDelete_self {α : Type} (m : List (String × α)) (k : String) :
    assocGet (assocDelete m k) k = none := by
  unfold assocGet assocDelete
  rw [List.find?_eq_none.mpr]
  · rfl
  · intro p hp
    have := List.of_mem_filter hp
    simp only [Bool.not_eq_true'] at this
    simp [this]

theorem assocGet_assocPut_self {α : Type} (m : List (String × α)) (k : String) (v : α) :
    assocGet (assocPut m k v) k = some v := by
  induction m with
  | nil => simp [assocGet, assocPut]
  | cons p m ih =>
    by_cases hp : p.1 = k
    · simp [assocPut, assocGet, List.any_cons, hp]
    · have hpb : (p.1 == k) = false := by simp [hp]
      cases hAny : m.any (fun q => q.1 == k) with
      | true =>
        have ih' := ih
        unfold assocPut at ih' ⊢
        rw [hAny, if_pos rfl] at ih'
        rw [List.any_cons, hpb, Bool.false_or, hAny, if_pos rfl]
        unfold assocGet at ih' ⊢
        simp only [List.map_cons]
        have hfp : (if (p.1 == k) = true then (k, v) else p) = p := by simp [hpb]
        rw [hfp, List.find?_cons_of_neg _ (by simp [hp])]
        exact ih'
      | false =>
        have ih' := ih
        unfold assocPut at ih' ⊢
        rw [hAny, if_neg (by simp)] at ih'
        rw [List.any_cons, hpb, Bool.false_or, hAny, if_neg (by simp)]
        unfold assocGet at ih' ⊢
        rw [List.cons_append, List.find?_cons_of_neg _ (by simp [hp])]
        exact ih'

theorem assocPut_map_fst {α : Type} {m : List (String × α)} {k : String} (v : α)
    (h : m.any (fun p => p.1 == k) = true) :
    (assocPut m k v).map Prod.fst = m.map Prod.fst := by
  unfold assocPut
  rw [h, if_pos rfl, List.map_map]
  apply List.map_congr_left
  intro a _
  by_cases hk : (a.1 == k) = true
  · simp only [Function.comp_apply, if_pos hk]
    exact (beq_iff_eq.mp hk).symm
  · simp only [Function.comp_apply, if_neg hk]

theorem cleanupStep_sessions (acc : Store) (sid : String) :
    (cleanupStep acc sid).sessions = assocDelete acc.sessions sid := by
  unfold cleanupStep
  cases assocGet acc.sessions sid <;> rfl

theorem cleanupStep_counter (acc : Store) (sid : String) :
    (cleanupStep acc sid).sessionCounter = acc.sessionCounter := by
  unfold cleanupStep
  cases assocGet acc.sessions sid <;> rfl

theorem foldl_cleanupStep_sessions (l : List String) :
    ∀ st : Store, (l.foldl cleanupStep st).sessions
      = l.foldl (fun m k => assocDelete m k) st.sessions := by
  induction l with
  | nil => intro st; rfl
  | cons x l ih =>
    intro st
    simp only [List.foldl_cons]
    rw [ih, cleanupStep_sessions]

theorem foldl_cleanupStep_counter (l : List String) :
    ∀ st : Store, (l.foldl cleanupStep st).sessionCounter = st.sessionCounter := by
  induction l with
  | nil => intro st; rfl
  | cons x l ih =>
    intro st
    simp only [List.foldl_cons]
    rw [ih, cleanupStep_counter]

theorem cleanup_counter (now : Int) (st : Store) :
    (cleanupExpiredSessions now st).sessionCounter = st.sessionCounter := by
  unfold cleanupExpiredSessions
  exact foldl_cleanupStep_counter _ _

theorem foldl_assocDelete_filter {α : Type} (l : List String) :
    ∀ m : List (String × α),
      l.foldl (fun m k => assocDelete m k) m
        = m.filter (fun e => !(l.any (fun k => e.1 == k))) := by
  induction l with
  | nil => intro m; simp
  | cons x l ih =>
    intro m
    simp only [List.foldl_cons]
    rw [ih]
    unfold assocDelete
    rw [List.filter_filter]
    apply List.filter_congr
    intro e _
    simp only [List.any_cons, Bool.not_or]
    cases h1 : (e.1 == x) <;> cases h2 : l.any (fun k => e.1 == k) <;> rfl

theorem cleanup_sessions_eq (now : Int) (st : Store) :
    (cleanupExpiredSessions now st).sessions
      = st.sessions.filter (fun e =>
          !(((st.sessions.filter (fun x => isSessionExpired now x.2)).map Prod.fst).any
            (fun k => e.1 == k))) := by
  unfold cleanupExpiredSessions
  rw [foldl_cleanupStep_sessions, foldl_assocDelete_filter]

theorem cleanup_mem {now : Int} {st : Store} {e : String × Session}
    (h : e ∈ (cleanupExpiredSessions now st).sessions) : e ∈ st.sessions := by
  rw [cleanup_sessions_eq] at h
  exact List.mem_of_mem_filter h

theorem cleanup_not_expired {now : Int} {st : Store} {e : String × Session}
    (h : e ∈ (cleanupExpiredSessions now st).sessions) :
    isSessionExpired now e.2 = false := by
  rw [cleanup_sessions_eq] at h
  have hmem := List.mem_of_mem_filter h
  have hp := List.of_mem_filter h
  cases hb : isSessionExpired now e.2 with
  | false => rfl
  | true =>
    exfalso
    have h1 : e ∈ st.sessions.filter (fun x => isSessionExpired now x.2) :=
      List.mem_filter.mpr ⟨hmem, by rw [hb]⟩
    have h2 : e.1 ∈ (st.sessions.filter (fun x => isSessionExpired now x.2)).map Prod.fst :=
      List.mem_map_of_mem Prod.fst h1
    have h3 : (((st.sessions.filter (fun x => isSessionExpired now x.2)).map Prod.fst).any
        (fun k => e.1 == k)) = true :=
      List.any_eq_true.mpr ⟨e.1, h2, by simp⟩
    rw [h3] at hp
    simp at hp

theorem filter_key_length_map (f : (String × List String) → (String × List String))
    (hf : ∀ q, (f q).1 = q.1) (l : List (String × List String)) (x : String) :
    ((l.map f).filter (fun q => q.1 == x)).length
      = (l.filter (fun q => q.1 == x)).length := by
  induction l with
  | nil => rfl
  | cons q l ih =>
    simp only [List.map_cons, List.filter_cons, hf q]
    cases hq : (q.1 == x) <;> simp [ih]

theorem any_eq_false_forall {α : Type} {l : List α} {p : α → Bool}
    (h : l.any p = false) : ∀ a ∈ l, p a = false := by
  intro a ha
  cases hb : p a with
  | false => rfl
  | true =>
    exfalso
    have := List.any_eq_true.mpr ⟨a, ha, hb⟩
    rw [h] at this
    exact Bool.false_ne_true this

theorem sessionInv_updateSessionSignals {s : Session} (hs : SessionInv s)
    {t : String} (ht : ∃ p ∈ s.peers, p.id = t) (sig : String) :
    SessionInv (updateSessionSignals s t sig) := by
  obtain ⟨hlen, hlock, hkeys, hcount⟩ := hs
  obtain ⟨pt, hpt, hptid⟩ := ht
  have hf : ∀ q : String × List String,
      ((fun q => if q.1 == t then (q.1, q.2 ++ [sig]) else q) q).1 = q.1 := by
    intro q
    by_cases hq : (q.1 == t) = true <;> simp [hq]
  cases hAny : s.signals.any (fun q => q.1 == t) with
  | false =>
    exfalso
    have h0 := hcount pt hpt
    have hnil : s.signals.filter (fun q => q.1 == pt.id) = [] := by
      apply List.filter_eq_nil_iff.mpr
      intro q hq
      have := any_eq_false_forall hAny q hq
      rw [hptid]
      simp [this]
    rw [hnil] at h0
    simp at h0
  | true =>
    unfold updateSessionSignals SessionInv
    rw [hAny]
    dsimp only
    simp only [if_true]
    refine ⟨hlen, hlock, ?_, ?_⟩
    · intro q hq
      obtain ⟨q0, hq0, hq0e⟩ := List.mem_map.mp hq
      subst hq0e
      obtain ⟨p, hp, hid⟩ := hkeys q0 hq0
      refine ⟨p, hp, ?_⟩
      by_cases hb : (q0.1 == t) = true
      · simp only [if_pos hb]
        exact hid
      · simp only [if_neg hb]
        exact hid
    · intro p hp
      rw [filter_key_length_map _ hf]
      exact hcount p hp

theorem sessionInv_clearPeerSignals {s : Session} (hs : SessionInv s) (pid : String) :
    SessionInv (clearPeerSignals s pid) := by
  obtain ⟨hlen, hlock, hkeys, hcount⟩ := hs
  have hf : ∀ q : String × List String,
      ((fun q => if q.1 == pid then (q.1, ([] : List String)) else q) q).1 = q.1 := by
    intro q
    by_cases hq : (q.1 == pid) = true <;> simp [hq]
  unfold clearPeerSignals SessionInv
  dsimp only
  refine ⟨hlen, hlock, ?_, ?_⟩
  · intro q hq
    obtain ⟨q0, hq0, hq0e⟩ := List.mem_map.mp hq
    subst hq0e
    obtain ⟨p, hp, hid⟩ := hkeys q0 hq0
    refine ⟨p, hp, ?_⟩
    by_cases hb : (q0.1 == pid) = true
    · simp only [if_pos hb]
      exact hid
    · simp only [if_neg hb]
      exact hid
  · intro p hp
    rw [filter_key_length_map _ hf]
    exact hcount p hp

theorem sessionInv_register {s : Session} (hs : SessionInv s) (pid : String) (now : Int)
    (hmem : s.peers.any (fun p => p.id == pid) = false)
    (hcap : s.peers.length < 2) :
    SessionInv
      { id := s.id, code := s.code, createdAt := s.createdAt,
        peers := s.peers ++ [({ id := pid, joinedAt := now } : PeerInfo)],
        isLocked := decide (MAX_PEERS_PER_SESSION
          ≤ (s.peers ++ [({ id := pid, joinedAt := now } : PeerInfo)]).length),
        signals := s.signals ++ [(pid, [])] } := by
  obtain ⟨hlen, hlock, hkeys, hcount⟩ := hs
  have hnotid : ∀ p ∈ s.peers, (p.id == pid) = false := any_eq_false_forall hmem
  refine ⟨?_, ?_, ?_, ?_⟩
  · simp only [List.length_append, List.length_cons, List.length_nil]
    omega
  · rfl
  · intro q hq
    rcases List.mem_append.mp hq with h1 | h1
    · obtain ⟨p, hp, hpid⟩ := hkeys q h1
      exact ⟨p, List.mem_append_left _ hp, hpid⟩
    · have : q = (pid, []) := by simpa using h1
      refine ⟨({ id := pid, joinedAt := now } : PeerInfo), List.mem_append_right _ (by simp), ?_⟩
      rw [this]
  · intro p hp
    rcases List.mem_append.mp hp with h1 | h1
    · have hpn : (pid == p.id) = false := by
        have := hnotid p h1
        simp only [beq_eq_false_iff_ne] at this ⊢
        exact fun he => this he.symm
      rw [List.filter_append]
      simp only [List.filter_cons, List.filter_nil, hpn]
      simp only [Bool.false_eq_true, if_false, List.append_nil]
      exact hcount p h1
    · have hpe : p = { id := pid, joinedAt := now } := by simpa using h1
      subst hpe
      rw [List.filter_append]
      have hnil : s.signals.filter (fun q => q.1 == pid) = [] := by
        apply List.filter_eq_nil_iff.mpr
        intro q hq hqp
        obtain ⟨p0, hp0, hp0id⟩ := hkeys q hq
        have := hnotid p0 hp0
        rw [beq_iff_eq] at hqp
        rw [← hp0id, hqp] at this
        simp at this
      rw [hnil]
      simp

theorem findTargetPeer_mem {peers : List PeerInfo} {f t : String}
    (h : findTargetPeer peers f = some t) : ∃ p ∈ peers, p.id = t := by
  unfold findTargetPeer at h
  suffices H : ∀ (l : List PeerInfo) (acc : Option String),
      l.foldl (fun acc p => if p.id != f then some p.id else acc) acc = some t →
      acc = some t ∨ ∃ p ∈ l, p.id = t by
    rcases H peers none h with h1 | h1
    · exact absurd h1 (by simp)
    · exact h1
  intro l
  induction l with
  | nil => intro acc h0; exact Or.inl h0
  | cons p l ih =>
    intro acc h0
    simp only [List.foldl_cons] at h0
    rcases ih _ h0 with h1 | h1
    · by_cases hp : (p.id != f) = true
      · rw [if_pos hp] at h1
        right
        exact ⟨p, List.mem_cons_self p l, Option.some.inj h1⟩
      · rw [if_neg hp] at h1
        exact Or.inl h1
    · right
      obtain ⟨q, hq, hqt⟩ := h1
      exact ⟨q, List.mem_cons_of_mem _ hq, hqt⟩

theorem storeInv_cleanup (now : Int) {st : Store} (h : StoreInv st) :
    StoreInv (cleanupExpiredSessions now st) :=
  fun e he => h e (cleanup_mem he)

theorem storeInv_createSession (now : Int) {st : Store} (h : StoreInv st) :
    StoreInv ((createSession now st).2) := by
  intro e he
  rcases assocPut_mem he with h1 | h1
  · exact storeInv_cleanup now h e h1
  · rw [h1]
    exact ⟨by simp, rfl, by simp, by simp⟩

theorem storeInv_registerPeer (now : Int) (code pid : String) {st : Store}
    (h : StoreInv st) : StoreInv ((registerPeer now st code pid).2) := by
  have h1 : StoreInv (cleanupExpiredSessions now st) := storeInv_cleanup now h
  unfold registerPeer
  dsimp only
  split
  · exact h1
  · split
    · exact h1
    · next s hs =>
      split
      · intro e he
        exact h1 e (assocDelete_mem he)
      · split
        · exact h1
        · split
          · exact h1
          · next hmem =>
            split
            · exact h1
            · next hcap =>
              intro e he
              rcases assocPut_mem he with h2 | h2
              · exact h1 e h2
              · rw [h2]
                dsimp only
                have hsInv : SessionInv s := h1 _ (mem_of_assocGet hs)
                refine sessionInv_register hsInv pid now ?_ ?_
                · simpa using hmem
                · have hc2 : ¬ (MAX_PEERS_PER_SESSION ≤ s.peers.length) := hcap
                  rw [show MAX_PEERS_PER_SESSION = 2 from rfl] at hc2
                  omega

theorem storeInv_sendSignal (now : Int) (sid pid sig : String) {st : Store}
    (h : StoreInv st) : StoreInv ((sendSignal now st sid pid sig).2) := by
  unfold sendSignal
  split
  · exact h
  · next s hs =>
    split
    · intro e he
      exact h e (assocDelete_mem he)
    · split
      · exact h
      · split
        · exact h
        · next t htgt =>
          intro e he
          rcases assocPut_mem he with h2 | h2
          · exact h e h2
          · rw [h2]
            exact sessionInv_updateSessionSignals (h _ (mem_of_assocGet hs))
              (findTargetPeer_mem htgt) sig

theorem storeInv_clearSignals (sid pid : String) {st : Store}
    (h : StoreInv st) : StoreInv ((clearSignals st sid pid).2) := by
  unfold clearSignals
  split
  · exact h
  · next s hs =>
    intro e he
    rcases assocPut_mem he with h2 | h2
    · exact h e h2
    · rw [h2]
      exact sessionInv_clearPeerSignals (h _ (mem_of_assocGet hs)) pid

theorem storeInv_step {st st' : Store} (h : StoreInv st) (hstep : Step st st') :
    StoreInv st' := by
  cases hstep with
  | create now st => exact storeInv_createSession now h
  | register now code peerId st => exact storeInv_registerPeer now code peerId h
  | send now sessionId fromPeerId sig st => exact storeInv_sendSignal now sessionId fromPeerId sig h
  | clear sessionId peerId st => exact storeInv_clearSignals sessionId peerId h

theorem reachable_storeInv {st : Store} (h : Reachable st) : StoreInv st := by
  induction h with
  | init =>
    intro e he
    simp [initStore] at he
  | step hr hs ih => exact storeInv_step ih hs

theorem genChars_length (s n : Nat) : (genChars s n).length = n := by
  induction n generalizing s with
  | zero => rfl
  | succ n ih => simp [genChars, ih]

theorem codeChars_getD_mem (i : Nat) : CODE_CHARS.getD i 'A' ∈ CODE_CHARS := by
  rw [List.getD_eq_getElem?_getD]
  cases e : CODE_CHARS[i]? with
  | none =>
    simp only [Option.getD_none]
    decide
  | some c =>
    simp only [Option.getD_some]
    exact List.getElem?_mem e

theorem genChars_mem {n : Nat} : ∀ {s : Nat} {c : Char}, c ∈ genChars s n → c ∈ CODE_CHARS := by
  induction n with
  | zero => intro s c h; simp [genChars] at h
  | succ n ih =>
    intro s c h
    rcases List.mem_cons.mp h with h1 | h1
    · rw [h1]
      exact codeChars_getD_mem _
    · exact ih h1

theorem generateCode_length (seed : Nat) : (generateCode seed).length = 6 :=
  genChars_length (lcgStep seed) 6 ▸ genChars_length seed 6

theorem generateCode_chars {seed : Nat} {c : Char}
    (h : c ∈ (generateCode seed).data) :
    ('A' ≤ c ∧ c ≤ 'Z') ∨ ('0' ≤ c ∧ c ≤ '9') := by
  have h1 : c ∈ CODE_CHARS := genChars_mem h
  have hall : ∀ x ∈ CODE_CHARS, ('A' ≤ x ∧ x ≤ 'Z') ∨ ('0' ≤ x ∧ x ≤ '9') := by decide
  exact hall c h1

theorem retryLoop_shape (idx : List (String × String)) (base : Nat) :
    ∀ fuel attempts code, retryLoop idx base attempts fuel code = code ∨
      ∃ j, retryLoop idx base attempts fuel code = generateCode (base + j * 104729) := by
  intro fuel
  induction fuel with
  | zero => intro attempts code; left; rfl
  | succ f ih =>
    intro attempts code
    simp only [retryLoop]
    by_cases h : (assocGet idx code).isSome = true
    · rw [if_pos h]
      rcases ih (attempts + 1) (generateCode (base + (attempts + 1) * 104729)) with h1 | h1
      · right; exact ⟨attempts + 1, h1⟩
      · right; exact h1
    · rw [if_neg h]; left; rfl

theorem retryLoop_fresh (idx : List (String × String)) (base : Nat) :
    ∀ fuel attempts code,
      (assocGet idx code = none ∨
        ∃ j, 1 ≤ j ∧ j ≤ fuel ∧
          assocGet idx (generateCode (base + (attempts + j) * 104729)) = none) →
      assocGet idx (retryLoop idx base attempts fuel code) = none := by
  intro fuel
  induction fuel with
  | zero =>
    intro attempts code h
    rcases h with h | ⟨j, hj1, hj0, _⟩
    · exact h
    · omega
  | succ f ih =>
    intro attempts code h
    simp only [retryLoop]
    by_cases hc : (assocGet idx code).isSome = true
    · rw [if_pos hc]
      rcases h with h | ⟨j, hj1, hjf, hfresh⟩
      · rw [h] at hc; simp at hc
      · by_cases hj : j = 1
        · subst hj
          exact ih (attempts + 1) _ (Or.inl hfresh)
        · apply ih (attempts + 1)
          right
          refine ⟨j - 1, by omega, by omega, ?_⟩
          have he : attempts + 1 + (j - 1) = attempts + j := by omega
          rw [he]
          exact hfresh
    · rw [if_neg hc]
      cases hq : assocGet idx code with
      | none => rfl
      | some v => rw [hq] at hc; simp at hc

theorem code_of_createSession (now : Int) (st : Store) :
    (createSession now st).1.code
      = retryLoop (cleanupExpiredSessions now st).codeToSessionId
          ((now.natAbs % 999999999) + (st.sessionCounter + 1) * 7919) 0 100
          (generateCode ((now.natAbs % 999999999) + (st.sessionCounter + 1) * 7919)) := by
  unfold createSession
  dsimp only
  rw [cleanup_counter]

theorem ceil_div_step {m c : Nat} (hc : 0 < c) (hm : 0 < m) :
    (m + c - 1) / c = (m - c + c - 1) / c + 1 := by
  rcases le_or_lt m c with h | h
  · have h1 : m - c = 0 := by omega
    rw [h1]
    have h2 : (0 + c - 1) / c = 0 := Nat.div_eq_of_lt (by omega)
    rw [h2]
    have h3 : 1 * c ≤ m + c - 1 := by omega
    have h4 : m + c - 1 < (1 + 1) * c := by omega
    rw [Nat.div_eq_of_lt_le h3 h4]
  · have e1 : m + c - 1 = (m - 1) + c := by omega
    have e2 : m - c + c - 1 = m - 1 := by omega
    rw [e1, e2, Nat.add_div_right _ hc]

theorem chunkLoop_counts {c : Nat} (file : List Nat) (hc : 0 < c) :
    ∀ fuel offset i, file.length - offset ≤ fuel →
      ((chunkLoop c file fuel offset i).filter DCMessage.isChunkHeader).length
          = (file.length - offset + c - 1) / c ∧
      ((chunkLoop c file fuel offset i).filter DCMessage.isChunkData).length
          = (file.length - offset + c - 1) / c ∧
      ((chunkLoop c file fuel offset i).filter DCMessage.isComplete).length = 0 := by
  intro fuel
  induction fuel with
  | zero =>
    intro offset i h
    have h0 : file.length - offset = 0 := by omega
    rw [h0]
    have hdiv : (0 + c - 1) / c = 0 := Nat.div_eq_of_lt (by omega)
    rw [hdiv]
    simp [chunkLoop]
  | succ f ih =>
    intro offset i h
    by_cases ho : offset < file.length
    · have hrec := ih (offset + c) (i + 1) (by omega)
      obtain ⟨r1, r2, r3⟩ := hrec
      have hm : 0 < file.length - offset := by omega
      have harith := ceil_div_step hc hm
      have hlen2 : file.length - (offset + c) = file.length - offset - c := by omega
      rw [hlen2] at r1 r2
      simp only [chunkLoop, if_pos ho]
      refine ⟨?_, ?_, ?_⟩
      · simp only [List.filter_cons, DCMessage.isChunkHeader, DCMessage.isChunkData,
          if_true, if_false, Bool.false_eq_true, List.length_cons]
        rw [r1]
        exact harith.symm
      · simp only [List.filter_cons, DCMessage.isChunkHeader, DCMessage.isChunkData,
          if_true, if_false, Bool.false_eq_true, List.length_cons]
        rw [r2]
        exact harith.symm
      · simp only [List.filter_cons, DCMessage.isComplete, if_false, Bool.false_eq_true]
        exact r3
    · have h0 : file.length - offset = 0 := by omega
      rw [h0]
      have hdiv : (0 + c - 1) / c = 0 := Nat.div_eq_of_lt (by omega)
      rw [hdiv]
      simp [chunkLoop, ho]

theorem chunkLoop_payloads {c : Nat} (file : List Nat) (hc : 0 < c) :
    ∀ fuel offset i, file.length - offset ≤ fuel →
      (sentPayloads (chunkLoop c file fuel offset i)).flatten = file.drop offset := by
  intro fuel
  induction fuel with
  | zero =>
    intro o i h
    have hle : file.length ≤ o := by omega
    simp [chunkLoop, sentPayloads, List.drop_eq_nil_of_le hle]
  | succ f ih =>
    intro o i h
    by_cases ho : o < file.length
    · simp only [chunkLoop, if_pos ho, sentPayloads, List.filterMap_cons]
      rw [List.flatten_cons]
      have hrec := ih (o + c) (i + 1) (by omega)
      unfold sentPayloads at hrec
      rw [hrec]
      have hd : file.drop (o + c) = (file.drop o).drop c := by
        rw [List.drop_drop, Nat.add_comm]
      rw [hd]
      exact List.take_append_drop c (file.drop o)
    · have hle : file.length ≤ o := by omega
      simp [chunkLoop, ho, sentPayloads, List.drop_eq_nil_of_le hle]

theorem handle_pair_fields (st : ReceiverState) (i n : Nat) (p : List Nat) :
    (handleDataChannelMessage (handleDataChannelMessage st (DCMessage.chunkHeader i n))
        (DCMessage.chunkData p)).receivedChunks = st.receivedChunks ++ [p] ∧
    (handleDataChannelMessage (handleDataChannelMessage st (DCMessage.chunkHeader i n))
        (DCMessage.chunkData p)).expectingChunkData = false := by
  simp [handleDataChannelMessage, handleFileChunk]

theorem runReceiver_chunkLoop (c : Nat) (file : List Nat) :
    ∀ fuel offset i st, st.expectingChunkData = false →
      (runReceiver (chunkLoop c file fuel offset i) st).receivedChunks
          = st.receivedChunks ++ sentPayloads (chunkLoop c file fuel offset i) ∧
      (runReceiver (chunkLoop c file fuel offset i) st).expectingChunkData = false := by
  intro fuel
  induction fuel with
  | zero => intro o i st h; simp [chunkLoop, runReceiver, sentPayloads, h]
  | succ f ih =>
    intro o i st h
    by_cases ho : o < file.length
    · simp only [chunkLoop, if_pos ho]
      simp only [runReceiver, List.foldl_cons]
      obtain ⟨hp1, hp2⟩ := handle_pair_fields st i ((file.drop o).take c).length
        ((file.drop o).take c)
      have hrec := ih (o + c) (i + 1) _ hp2
      unfold runReceiver at hrec
      obtain ⟨hr1, hr2⟩ := hrec
      refine ⟨?_, hr2⟩
      rw [hr1, hp1]
      simp only [sentPayloads, List.filterMap_cons]
      rw [List.append_assoc]
      rfl
    · simp [chunkLoop, ho, runReceiver, sentPayloads, h]

theorem receiverMap_invariant : ∀ (msgs : List DCMessage),
    (∀ m ∈ msgs, m.isMetadata = false) →
    ∀ st : ReceiverState, st.receivedChunkMap = List.range st.chunksReceived →
      (runReceiver msgs st).receivedChunkMap
        = List.range ((runReceiver msgs st).chunksReceived) := by
  intro msgs
  induction msgs with
  | nil => intro _ st h; exact h
  | cons m msgs ih =>
    intro hnm st h
    simp only [runReceiver, List.foldl_cons]
    refine ih (fun m' hm' => hnm m' (List.mem_cons_of_mem _ hm')) _ ?_
    cases m with
    | metadata a b c d =>
      have := hnm _ (List.mem_cons_self _ _)
      simp [DCMessage.isMetadata] at this
    | chunkHeader i n => simpa [handleDataChannelMessage] using h
    | complete => simpa [handleDataChannelMessage] using h
    | calibrationTest => simpa [handleDataChannelMessage] using h
    | resume k => simpa [handleDataChannelMessage] using h
    | chunkData p =>
      by_cases hE : st.expectingChunkData = true
      · simp only [handleDataChannelMessage, if_pos hE, handleFileChunk]
        rw [h]
        simp [setAdd, List.range_succ]
      · simp only [handleDataChannelMessage, if_neg hE]
        exact h

theorem connStep_preserves {st : ConnState}
    (h : (st.remoteDescriptionSet = false →
            countAnswerApplications st.appliedDescriptions = 0) ∧
         countAnswerApplications st.appliedDescriptions ≤ 1) (sig : SignalMsg) :
    ((handleSignalFromCanister st sig).remoteDescriptionSet = false →
        countAnswerApplications (handleSignalFromCanister st sig).appliedDescriptions = 0) ∧
    countAnswerApplications (handleSignalFromCanister st sig).appliedDescriptions ≤ 1 := by
  obtain ⟨h0, h1⟩ := h
  cases sig with
  | offer sdp =>
    constructor
    · intro hflag
      simp [handleSignalFromCanister] at hflag
    · simp only [handleSignalFromCanister]
      unfold countAnswerApplications at h1 ⊢
      rw [List.filter_append]
      simpa using h1
  | answer sdp =>
    by_cases hF : st.remoteDescriptionSet = true
    · simp only [handleSignalFromCanister, if_pos hF]
      exact ⟨h0, h1⟩
    · have hFf : st.remoteDescriptionSet = false := by simpa using hF
      simp only [handleSignalFromCanister, if_neg hF]
      constructor
      · intro hflag
        simp at hflag
      · dsimp only
        unfold countAnswerApplications at h0 ⊢
        rw [List.filter_append, List.length_append, h0 hFf]
        simp
  | iceCandidate c =>
    cases c with
    | none => exact ⟨h0, h1⟩
    | some cand =>
      by_cases hF : st.remoteDescriptionSet = true
      · simp only [handleSignalFromCanister, if_pos hF]
        exact ⟨h0, h1⟩
      · simp only [handleSignalFromCanister, if_neg hF]
        exact ⟨h0, h1⟩

theorem connFold_invariant : ∀ (sigs : List SignalMsg) (st : ConnState),
    (st.remoteDescriptionSet = false →
        countAnswerApplications st.appliedDescriptions = 0) →
    countAnswerApplications st.appliedDescriptions ≤ 1 →
    countAnswerApplications
        ((sigs.foldl handleSignalFromCanister st).appliedDescriptions) ≤ 1 := by
  intro sigs
  induction sigs with
  | nil => intro st _ h1; exact h1
  | cons sig sigs ih =>
    intro st h0 h1
    simp only [List.foldl_cons]
    have hstep := connStep_preserves ⟨h0, h1⟩ sig
    exact ih _ hstep.1 hstep.2

theorem isSessionExpired_of_createdAt (now : Int) {s : Session}
    (h : s.createdAt = now) : isSessionExpired now s = false := by
  unfold isSessionExpired
  rw [h, sub_self]
  rfl

theorem isSessionExpired_congr (now : Int) {s s' : Session}
    (h : s'.createdAt = s.createdAt) :
    isSessionExpired now s' = isSessionExpired now s := by
  unfold isSessionExpired
  rw [h]

/-- C1 (amended): on a live, unlocked session, `registerPeer` with an
already-registered peer id is idempotent: it returns `#ok` with the same
session id and leaves the store exactly as the initial expiry sweep left it
(no duplicate peer entry, no other change).  When the session is locked the
source rejects even a member with the `Full` error (see the
counterexample), because the lock check precedes the member check. -/
theorem registerPeer_idempotent_unlocked (now : Int) (st : Store)
    (code pid sid : String) (s : Session)
    (hcode : assocGet (cleanupExpiredSessions now st).codeToSessionId code = some sid)
    (hsess : assocGet (cleanupExpiredSessions now st).sessions sid = some s)
    (hexp : isSessionExpired now s = false)
    (hlock : s.isLocked = false)
    (hmem : s.peers.any (fun p => p.id == pid) = true) :
    registerPeer now st code pid
      = (RegisterResult.ok sid, cleanupExpiredSessions now st) := by
  unfold registerPeer
  dsimp only
  rw [hcode]
  dsimp only
  rw [hsess]
  dsimp only
  rw [hexp, hlock, hmem]
  simp

/-- C1 witness: a concrete unlocked one-peer store where re-registering peer
"A" is idempotent. -/
theorem registerPeer_idempotent_unlocked_witness :
    registerPeer 0 halfStore "ZZZZ98" "A"
      = (RegisterResult.ok "s1", cleanupExpiredSessions 0 halfStore) :=
  registerPeer_idempotent_unlocked 0 halfStore "ZZZZ98" "A" "s1" halfSession
    (by decide) (by decide) (by decide) (by decide) (by decide)

/-- C1 counterexample: in a live session already locked with 2 peers,
re-registering the member "A" returns the `Full` error instead of success,
refuting the claim for the locked case. -/
theorem registerPeer_locked_member_rejected_cex :
    (registerPeer 0 lockedStore "ZZZZ99" "A").1 = RegisterResult.err "Session is full" ∧
    lockedSession.isLocked = true ∧
    lockedSession.peers.any (fun p => p.id == "A") = true ∧
    assocGet lockedStore.sessions "s1" = some lockedSession := by decide

/-- C2: every session in a store reachable by coordinator calls satisfies the
invariant: at most 2 peers, `isLocked` iff the 2-peer capacity is reached,
and exactly one mailbox entry per registered peer; consequently
`registerPeer` with a third distinct peer id on a live 2-peer session
returns the `Full` error. -/
theorem reachable_session_invariant (st : Store) (hreach : Reachable st)
    (sid : String) (s : Session)
    (hs : assocGet st.sessions sid = some s) :
    s.peers.length ≤ 2 ∧
    (s.isLocked = true ↔ 2 ≤ s.peers.length) ∧
    (∀ p ∈ s.peers, (s.signals.filter (fun q => q.1 == p.id)).length = 1) ∧
    (∀ (now : Int) (code pid : String),
      assocGet (cleanupExpiredSessions now st).codeToSessionId code = some sid →
      assocGet (cleanupExpiredSessions now st).sessions sid = some s →
      isSessionExpired now s = false →
      s.peers.length = 2 →
      (∀ p ∈ s.peers, p.id ≠ pid) →
      (registerPeer now st code pid).1 = RegisterResult.err "Session is full") := by
  have hinv := reachable_storeInv hreach
  have hsi : SessionInv s := hinv _ (mem_of_assocGet hs)
  obtain ⟨hlen, hlock, hkeys, hcount⟩ := hsi
  refine ⟨hlen, ?_, hcount, ?_⟩
  · rw [hlock]
    exact decide_eq_true_iff
  · intro now code pid hcode hsess hexp hlen2 hdist
    have hLockedTrue : s.isLocked = true := by
      rw [hlock, hlen2]
      decide
    unfold registerPeer
    dsimp only
    rw [hcode]
    dsimp only
    rw [hsess]
    dsimp only
    rw [hexp, hLockedTrue]
    simp

theorem wStore_reachable : Reachable wStore :=
  Reachable.step
    (Reachable.step
      (Reachable.step Reachable.init (Step.create 0 initStore))
      (Step.register 0 wCode "A" (createSession 0 initStore).2))
    (Step.register 0 wCode "B" (registerPeer 0 (createSession 0 initStore).2 wCode "A").2)

/-- C2 witness: in the concrete reachable `wStore` (create, register "A",
register "B"), the invariant rejects a third peer "C" with `Full`. -/
theorem reachable_session_invariant_witness :
    (registerPeer 0 wStore wCode "C").1 = RegisterResult.err "Session is full" := by
  have h := reachable_session_invariant wStore wStore_reachable "session_1_0" wSession
    (by decide)
  exact h.2.2.2 0 wCode "C" (by decide) (by decide) (by decide) (by decide) (by decide)

/-- C3: for a nonempty file and positive frozen chunk size, `sendFileData`
emits exactly `ceil(size / chunkSize)` chunk-header/payload pairs followed by
exactly one `complete` sentinel placed last, and replaying the emitted
sequence through the receiver's handler reassembles exactly the transmitted
byte sequence. -/
theorem chunked_transfer_roundtrip (file : List Nat) (c : Nat)
    (hc : 0 < c) (hf : 0 < file.length) :
    ((sendFileData file c).filter DCMessage.isChunkHeader).length
        = (file.length + c - 1) / c ∧
    ((sendFileData file c).filter DCMessage.isChunkData).length
        = (file.length + c - 1) / c ∧
    ((sendFileData file c).filter DCMessage.isComplete).length = 1 ∧
    (sendFileData file c).getLast? = some DCMessage.complete ∧
    reassemble (runReceiver (sendFileData file c) initReceiver) = file := by
  have hfuel : file.length - 0 ≤ file.length + 1 := by omega
  obtain ⟨h1, h2, h3⟩ := chunkLoop_counts file hc (file.length + 1) 0 0 hfuel
  rw [Nat.sub_zero] at h1 h2
  unfold sendFileData
  refine ⟨?_, ?_, ?_, ?_, ?_⟩
  · rw [List.filter_append, List.length_append, h1]
    simp [DCMessage.isChunkHeader]
  · rw [List.filter_append, List.length_append, h2]
    simp [DCMessage.isChunkData]
  · rw [List.filter_append, List.length_append, h3]
    simp [DCMessage.isComplete]
  · exact List.getLast?_concat _
  · unfold reassemble runReceiver
    rw [List.foldl_append]
    have hrec := runReceiver_chunkLoop c file (file.length + 1) 0 0 initReceiver rfl
    obtain ⟨hr1, _⟩ := hrec
    unfold runReceiver at hr1
    simp only [List.foldl_cons, List.foldl_nil]
    rw [show ∀ stx : ReceiverState,
      handleDataChannelMessage stx DCMessage.complete = stx from fun _ => rfl]
    rw [hr1]
    have hpl := chunkLoop_payloads file hc (file.length + 1) 0 0 hfuel
    rw [List.drop_zero] at hpl
    simpa [initReceiver] using hpl

/-- C3 witness: the 3-byte file with chunk size 2 yields 2 pairs and
round-trips exactly. -/
theorem chunked_transfer_roundtrip_witness :
    ((sendFileData [0, 1, 2] 2).filter DCMessage.isChunkHeader).length = 2 ∧
    reassemble (runReceiver (sendFileData [0, 1, 2] 2) initReceiver) = [0, 1, 2] := by
  have h := chunked_transfer_roundtrip [0, 1, 2] 2 (by decide) (by decide)
  exact ⟨h.1.trans (by decide), h.2.2.2.2⟩

/-- C4 (amended): `createSession` and `registerPeer` do sweep the whole
store, so after either call no session that was expired at call time
remains; but `sendSignal` only deletes the addressed session when that one
is expired, and `clearSignals` performs no expiry handling at all (its key
set is exactly the input's), so other expired sessions survive those two
mutating calls. -/
theorem expiry_sweep_amended (now : Int) (st : Store) :
    (∀ e ∈ ((createSession now st).2).sessions, isSessionExpired now e.2 = false) ∧
    (∀ code pid : String, ∀ e ∈ ((registerPeer now st code pid).2).sessions,
        isSessionExpired now e.2 = false) ∧
    (∀ (sid pid sig : String) (s : Session), assocGet st.sessions sid = some s →
        isSessionExpired now s = true →
        assocGet ((sendSignal now st sid pid sig).2).sessions sid = none) ∧
    (∀ sid pid : String,
        ((clearSignals st sid pid).2).sessions.map Prod.fst
          = st.sessions.map Prod.fst) := by
  refine ⟨?_, ?_, ?_, ?_⟩
  · intro e he
    rcases assocPut_mem he with h1 | h1
    · exact cleanup_not_expired h1
    · rw [h1]
      exact isSessionExpired_of_createdAt now rfl
  · intro code pid e he
    revert he
    unfold registerPeer
    dsimp only
    split
    · intro he; exact cleanup_not_expired he
    · split
      · intro he; exact cleanup_not_expired he
      · next s hs =>
        split
        · intro he
          exact cleanup_not_expired (assocDelete_mem he)
        · next hexp =>
          split
          · intro he; exact cleanup_not_expired he
          · split
            · intro he; exact cleanup_not_expired he
            · split
              · intro he; exact cleanup_not_expired he
              · intro he
                rcases assocPut_mem he with h1 | h1
                · exact cleanup_not_expired h1
                · rw [h1]
                  dsimp only
                  show isSessionExpired now s = false
                  simp only [Bool.not_eq_true] at hexp
                  exact hexp
  · intro sid pid sig s hget hexp
    unfold sendSignal
    rw [hget]
    dsimp only
    rw [hexp, if_pos rfl]
    exact assocGet_assocDelete_self _ _
  · intro sid pid
    unfold clearSignals
    cases hget : assocGet st.sessions sid with
    | none => rfl
    | some s =>
      dsimp only
      exact assocPut_map_fst _ (assocGet_any hget)

/-- C4 witness: `sendSignal` addressed at the expired session deletes it. -/
theorem expiry_sweep_amended_witness :
    assocGet ((sendSignal 700000000000 expiredStore "e" "p" "sig").2).sessions "e"
      = none := by
  have h := expiry_sweep_amended 700000000000 expiredStore
  exact h.2.2.1 "e" "p" "sig" eSession (by decide) (by decide)

/-- C4 counterexample: at `now = 700e9` ns session "e" (created at 0) is
already expired, yet the mutating `clearSignals` call succeeds and leaves
both the session and its code-index entry in place — no sweep happened. -/
theorem clearSignals_keeps_expired_cex :
    (clearSignals expiredStore "e" "p").1 = ClearResult.ok ∧
    assocGet ((clearSignals expiredStore "e" "p").2).sessions "e" = some eSession ∧
    assocGet ((clearSignals expiredStore "e" "p").2).codeToSessionId "EEEEEE"
      = some "e" ∧
    isSessionExpired 700000000000 eSession = true := by decide

/-- C5 (amended): every `createSession` call returns a code of exactly 6
characters drawn from [A-Z0-9]; the collision loop retries at most 100 times
and stops at the first unused candidate, so whenever any of the 101 candidate
codes of the call's seed is unused, the returned code is not the code of any
live session.  When all 101 candidates are taken the call exhausts the bound
and returns normally with the last, still colliding, candidate (see the
counterexample) — there is no fatal error. -/
theorem createSession_code_amended (now : Int) (st : Store)
    (hfree : ∃ k, k ≤ 100 ∧
      assocGet (cleanupExpiredSessions now st).codeToSessionId
        (generateCode ((now.natAbs % 999999999) + (st.sessionCounter + 1) * 7919
          + k * 104729)) = none) :
    (createSession now st).1.code.length = 6 ∧
    (∀ ch ∈ (createSession now st).1.code.data,
      ('A' ≤ ch ∧ ch ≤ 'Z') ∨ ('0' ≤ ch ∧ ch ≤ '9')) ∧
    assocGet (cleanupExpiredSessions now st).codeToSessionId
      (createSession now st).1.code = none := by
  have hcode := code_of_createSession now st
  refine ⟨?_, ?_, ?_⟩
  · rw [hcode]
    rcases retryLoop_shape (cleanupExpiredSessions now st).codeToSessionId
      ((now.natAbs % 999999999) + (st.sessionCounter + 1) * 7919) 100 0
      (generateCode ((now.natAbs % 999999999) + (st.sessionCounter + 1) * 7919))
      with h1 | ⟨j, h1⟩
    · rw [h1]; exact generateCode_length _
    · rw [h1]; exact generateCode_length _
  · intro ch hch
    rw [hcode] at hch
    rcases retryLoop_shape (cleanupExpiredSessions now st).codeToSessionId
      ((now.natAbs % 999999999) + (st.sessionCounter + 1) * 7919) 100 0
      (generateCode ((now.natAbs % 999999999) + (st.sessionCounter + 1) * 7919))
      with h1 | ⟨j, h1⟩
    · rw [h1] at hch; exact generateCode_chars hch
    · rw [h1] at hch; exact generateCode_chars hch
  · rw [hcode]
    apply retryLoop_fresh
    obtain ⟨k, hk, hfr⟩ := hfree
    by_cases hk0 : k = 0
    · left
      subst hk0
      simpa using hfr
    · right
      refine ⟨k, by omega, by omega, ?_⟩
      simpa using hfr

/-- C5 witness: on the fresh store the first candidate is unused, so the
call returns a fresh 6-character code. -/
theorem createSession_code_amended_witness :
    (createSession 0 initStore).1.code.length = 6 ∧
    assocGet (cleanupExpiredSessions 0 initStore).codeToSessionId
      (createSession 0 initStore).1.code = none := by
  have h := createSession_code_amended 0 initStore ⟨0, by omega, by decide⟩
  exact ⟨h.1, h.2.2⟩

/-- C5 counterexample: with all 101 candidate codes of the call's seed held
by live sessions, `createSession` exhausts the 100-retry bound and returns
normally with a code that is simultaneously the code of another live session
in the post-state — not a fatal error, and not unique. -/
theorem createSession_exhaustion_duplicate_cex :
    (assocGet collisionStore.codeToSessionId
        (createSession 0 collisionStore).1.code).isSome = true ∧
    ((createSession 0 collisionStore).2).sessions.any
      (fun e => e.2.code == (createSession 0 collisionStore).1.code
        && e.2.id != (createSession 0 collisionStore).1.sessionId) = true := by
  decide

/-- C6 (amended): the received-chunk index set records arrival positions, not
header indices: after any metadata-free message sequence it equals
`{0, …, n−1}` where `n` is the number of binary chunk payloads consumed; the
header's `index` field is never read. -/
theorem receivedChunkMap_arrival_order (msgs : List DCMessage)
    (hnm : ∀ m ∈ msgs, m.isMetadata = false) :
    (runReceiver msgs initReceiver).receivedChunkMap
      = List.range ((runReceiver msgs initReceiver).chunksReceived) :=
  receiverMap_invariant msgs hnm initReceiver rfl

/-- C6 witness: a chunk announced with header index 7 still lands at arrival
position 0 = the range of the consumed-chunk count. -/
theorem receivedChunkMap_arrival_order_witness :
    (runReceiver [DCMessage.chunkHeader 7 1, DCMessage.chunkData [3]]
        initReceiver).receivedChunkMap
      = List.range ((runReceiver [DCMessage.chunkHeader 7 1, DCMessage.chunkData [3]]
        initReceiver).chunksReceived) :=
  receivedChunkMap_arrival_order _ (by decide)

/-- C6 counterexample: consuming one chunk whose header carries index 5
records index 0, and 5 is absent from the set — the set does not contain the
header's index field. -/
theorem receivedChunkMap_header_index_cex :
    (runReceiver [DCMessage.chunkHeader 5 1, DCMessage.chunkData [9]]
        initReceiver).receivedChunkMap = [0] ∧
    ¬ (5 ∈ (runReceiver [DCMessage.chunkHeader 5 1, DCMessage.chunkData [9]]
        initReceiver).receivedChunkMap) := by
  decide

/-- C7 (code-bug evidence): `handleDataChannelMessage` stores the received
`resume{fromChunk}` value in `state.resumeFromChunk`, but `sendFileData`
never reads it — its signature has no resume input at all — so with
`resumeFromChunk = 1` pending, sending the 3-byte file `[1,2,3]` with chunk
size 2 still emits the chunk with index 0 (below `fromChunk`) as well as
chunk 1, instead of skipping chunk 0. -/
theorem resume_request_ignored_by_sender :
    (handleDataChannelMessage initReceiver (DCMessage.resume 1)).resumeFromChunk = 1 ∧
    (sendFileData [1, 2, 3] 2).filter DCMessage.isChunkHeader
      = [DCMessage.chunkHeader 0 2, DCMessage.chunkHeader 1 1] := by
  decide

/-- C8: across any polled signal sequence, the handler applies an `answer`
remote description at most once: the first application raises
`remoteDescriptionSet`, the flag is never lowered, and every later `answer`
is ignored rather than reapplied. -/
theorem answer_applied_at_most_once (sigs : List SignalMsg) :
    countAnswerApplications
      ((sigs.foldl handleSignalFromCanister initConn).appliedDescriptions) ≤ 1 :=
  connFold_invariant sigs initConn (fun _ => rfl) (by decide)

/-- C9: `pollSignals` (source `getSignals`, a query) mutates no coordinator
state: the store is returned unchanged, an immediate second poll with the
same arguments returns the same result, and on an expired session it reports
the `Expired` error while the session stays in the store. -/
theorem pollSignals_pure (now : Int) (st : Store) (sid pid : String) :
    (getSignals now st sid pid).2 = st ∧
    (getSignals now ((getSignals now st sid pid).2) sid pid).1
        = (getSignals now st sid pid).1 ∧
    (∀ s : Session, assocGet st.sessions sid = some s →
      isSessionExpired now s = true →
      (getSignals now st sid pid).1 = SignalsResult.err "Session expired" ∧
      assocGet ((getSignals now st sid pid).2).sessions sid = some s) := by
  have h2 : (getSignals now st sid pid).2 = st := by
    unfold getSignals
    split
    · rfl
    · split
      · rfl
      · split
        · rfl
        · rfl
  refine ⟨h2, by rw [h2], ?_⟩
  intro s hget hexp
  constructor
  · unfold getSignals
    rw [hget]
    dsimp only
    rw [hexp, if_pos rfl]
  · rw [h2]
    exact hget

/-- C9 witness: polling the expired session reports `Expired` and the
session is still present afterwards. -/
theorem pollSignals_pure_witness :
    (getSignals 700000000000 expiredStore "e" "p").1
        = SignalsResult.err "Session expired" ∧
    assocGet ((getSignals 700000000000 expiredStore "e" "p").2).sessions "e"
        = some eSession := by
  have h := pollSignals_pure 700000000000 expiredStore "e" "p"
  exact h.2.2 eSession (by decide) (by decide)

/-- C10: `clearSignals` performs no expiry check and no membership check:
for any stored session it returns `#ok` — even when the session's age
exceeds the TTL — and for a peer id that is no member (mailbox keys all
belonging to members, as every reachable store guarantees) it leaves the
session, in particular every mailbox queue, unchanged. -/
theorem clearSignals_no_checks (st : Store) (sid pid : String) (s : Session)
    (hget : assocGet st.sessions sid = some s)
    (hkeys : ∀ q ∈ s.signals, ∃ p ∈ s.peers, q.1 = p.id)
    (hnm : ∀ p ∈ s.peers, p.id ≠ pid) :
    (clearSignals st sid pid).1 = ClearResult.ok ∧
    assocGet ((clearSignals st sid pid).2).sessions sid = some s := by
  have hmap : s.signals.map
      (fun q => if q.1 == pid then (q.1, ([] : List String)) else q) = s.signals := by
    have hid : ∀ q ∈ s.signals,
        (if q.1 == pid then (q.1, ([] : List String)) else q) = id q := by
      intro q hq
      obtain ⟨p, hp, hpid⟩ := hkeys q hq
      have hne : (q.1 == pid) = false := by
        simp only [beq_eq_false_iff_ne]
        rw [hpid]
        exact hnm p hp
      rw [hne]
      simp
    rw [List.map_congr_left hid, List.map_id]
  have hcl : clearPeerSignals s pid = s := by
    unfold clearPeerSignals
    rw [hmap]
  unfold clearSignals
  rw [hget]
  dsimp only
  rw [hcl]
  exact ⟨rfl, assocGet_assocPut_self _ _ _⟩

/-- C10 witness: on the long-expired session "e" with a non-member peer id,
`clearSignals` succeeds and the session is unchanged. -/
theorem clearSignals_no_checks_witness :
    isSessionExpired 700000000000 eSession = true ∧
    ((clearSignals expiredStore "e" "q").1 = ClearResult.ok ∧
      assocGet ((clearSignals expiredStore "e" "q").2).sessions "e" = some eSession) :=
  ⟨by decide,
   clearSignals_no_checks expiredStore "e" "q" eSession (by decide) (by decide) (by decide)⟩
